import Mathlib

/-!
# NogoMiner: RPC method negotiation and miner session lifecycle

Shallow embedding of `nogominer-cpu/miner.go`.

* The HTTP/JSON exchange inside `RPCClient.Call` is a parameter (`Transport`): a
  function from the requests already handed to it and the current request to the
  outcome of the exchange, so an answer may depend on everything sent before.
* A `*RPCClient` is mutated in place by the Go code; here every operation takes and
  returns a `Wire`: the client fields together with the list of requests issued so far.
* Go `int` is taken to be 64 bits wide (`wrapInt`), `uint64` is `Nat` modulo `2^64`.
  Along one execution every call sees a longer history, so any sequence of answers a
  real node gives is the behaviour of some `Transport`.
* A `*RPCClient` is used here by one caller at a time: operations are run one after the
  other, each to completion.
* `time.Sleep` and the diagnostic `fmt.Printf` in `GetWork` change neither the client,
  nor the requests, nor the returned values, and are not represented.
* For the miner, `go` statements are recorded (`Process.spawned`) rather than run; the
  one effect of a launched goroutine on the session fields that matters to `Start` and
  `Stop`, the waiting goroutine clearing `running`, is a step of its own (`workersDone`).
-/

namespace NogoMiner

/-! ## Values and envelopes -/

/-- A decoded JSON value, as `encoding/json` stores it in an `interface{}`. -/
inductive Value where
  | null
  | bool (b : Bool)
  | float64 (bits : Nat)
  | string (s : String)
  | array (items : List Value)
  | object (fields : List (String × Value))

instance : Inhabited Value := ⟨Value.null⟩

/-- The text `%T` prints for a decoded JSON value. -/
def goTypeName : Value → String
  | .null => "<nil>"
  | .bool _ => "bool"
  | .float64 _ => "float64"
  | .string _ => "string"
  | .array _ => "[]interface {}"
  | .object _ => "map[string]interface {}"

/-- Two's complement wrap-around of a 64-bit Go `int`. -/
def wrapInt (x : Int) : Int := (x + 2 ^ 63) % 2 ^ 64 - 2 ^ 63

/-- Go `RPCRequest`. -/
structure RPCRequest where
  JSONRPC : String
  Method : String
  Params : List Value
  ID : Int

instance : Inhabited RPCRequest := ⟨⟨"", "", [], 0⟩⟩

/-- Go `BlockTemplate`; the `Header` map is an association list. -/
structure BlockTemplate where
  Header : List (String × Value)
  Transactions : List Value
  Uncles : List Value

/-- Go `RPCClient` (the `*http.Client` field belongs to the transport). -/
structure RPCClient where
  url : String
  reqID : Int
  etherbase : String
  successfulMethod : String

/-- Go `NewRPCClient`. -/
def NewRPCClient (url etherbase : String) : RPCClient :=
  { url := url, reqID := 0, etherbase := etherbase, successfulMethod := "" }

/-! ## Transport -/

/-- How one HTTP exchange inside `Call` can end, one constructor per exit of `Call`
after the request value has been built. -/
inductive Exchange where
  | requestFailed (e : String)
  | sendFailed (e : String)
  | readFailed (e : String)
  | decodeFailed (e : String)
  | rpcError (code : Int) (message : String)
  | result (v : Value)

/-- Whether the exchange ended without a result: every exit of `Call` with `err != nil`. -/
def failed : Exchange → Bool
  | .result _ => false
  | _ => true

/-- Whether the exchange ended with a result that is a JSON boolean. -/
def isBoolResult : Exchange → Bool
  | .result (.bool _) => true
  | _ => false

/-- The node and the network: given the requests received so far (oldest first) and
the current request, the outcome of the exchange. -/
abbrev Transport := List RPCRequest → RPCRequest → Exchange

/-- A client together with every request it has issued, oldest first. -/
structure Wire where
  client : RPCClient
  sent : List RPCRequest

/-- The request value `Call` builds (lines 84-91): the counter is incremented first and
the new value is the identifier. -/
def nextReq (c : RPCClient) (method : String) (params : List Value) : RPCRequest :=
  { JSONRPC := "2.0", Method := method, Params := params, ID := wrapInt (c.reqID + 1) }

/-- The state `Call` leaves behind, whatever the exchange returns: counter incremented
once, request appended to the issued ones. -/
def advance (s : Wire) (method : String) (params : List Value) : Wire :=
  { client := { s.client with reqID := wrapInt (s.client.reqID + 1) },
    sent := s.sent ++ [nextReq s.client method params] }

/-- The `(interface{}, error)` pair `Call` returns for each outcome (lines 98-125). -/
def answer : Exchange → Value × Option String
  | .requestFailed e => (.null, some ("failed to create HTTP request: " ++ e))
  | .sendFailed e => (.null, some ("failed to send HTTP request: " ++ e))
  | .readFailed e => (.null, some ("failed to read response body: " ++ e))
  | .decodeFailed e => (.null, some ("failed to unmarshal RPC response: " ++ e))
  | .rpcError code message =>
      (.null, some ("RPC error: " ++ message ++ " (code: " ++ toString code ++ ")"))
  | .result v => (v, none)

/-- Go `RPCClient.Call`. -/
def Call (t : Transport) (s : Wire) (method : String) (params : List Value) :
    (Value × Option String) × Wire :=
  (answer (t s.sent (nextReq s.client method params)), advance s method params)

/-! ## Work fetch -/

/-- The candidate list of `GetWork` (line 145). -/
def getWorkMethods : List String :=
  ["eth_getWork", "miner_getWork", "nogo_getWork", "mining_getWork"]

/-- The template both success paths of `GetWork` build: an empty header map with
`"raw"` set to the result, and empty transaction and uncle slices. -/
def newTemplate (result : Value) : BlockTemplate :=
  { Header := [("raw", result)], Transactions := [], Uncles := [] }

/-- The assignment `c.successfulMethod = method`. -/
def withMethod (s : Wire) (method : String) : Wire :=
  { s with client := { s.client with successfulMethod := method } }

/-- The `for _, method := range methods` loop of `GetWork` (lines 146-164). -/
def getWorkLoop (t : Transport) : List String → Wire → (Option BlockTemplate × Option String) × Wire
  | [], s => ((none, some "all getWork methods failed"), s)
  | method :: rest, s =>
    let r := Call t s method []
    match r.1.2 with
    | none =>
      ((some (newTemplate r.1.1), none), withMethod r.2 method)
    | some _ => getWorkLoop t rest r.2

/-- Go `RPCClient.GetWork`. -/
def GetWork (t : Transport) (s : Wire) : (Option BlockTemplate × Option String) × Wire :=
  if s.client.successfulMethod ≠ "" then
    let r := Call t s s.client.successfulMethod []
    match r.1.2 with
    | none => ((some (newTemplate r.1.1), none), r.2)
    | some _ => getWorkLoop t getWorkMethods (withMethod r.2 "")
  else
    getWorkLoop t getWorkMethods s

/-! ## Submissions -/

/-- The candidate list of `SubmitWork` (line 182). -/
def submitWorkMethods : List String :=
  ["nogo_submitWork", "miner_submitWork", "mining_submitWork", "eth_submitWork"]

/-- The candidate list of `SubmitHashrate` (line 223). -/
def submitHashrateMethods : List String :=
  ["nogo_submitHashrate", "miner_submitHashrate", "mining_submitHashrate", "eth_submitHashrate"]

/-- The loop in the `default:` case of `SubmitWork` (lines 183-192) and of
`SubmitHashrate` (lines 224-233); the two differ only in the candidates and in the
text of the final error, passed as `exhausted`. -/
def submitLoop (t : Transport) (exhausted : String) (params : List Value) :
    List String → Wire → (Bool × Option String) × Wire
  | [], s => ((false, some exhausted), s)
  | method :: rest, s =>
    let r := Call t s method params
    match r.1.2, r.1.1 with
    | none, .bool success => ((success, none), r.2)
    | _, _ => submitLoop t exhausted params rest r.2

/-- The code after the `switch` in `SubmitWork` (lines 195-205) and in `SubmitHashrate`
(lines 236-246): one call to the paired method. -/
def submitPaired (t : Transport) (submitMethod : String) (params : List Value) (s : Wire) :
    (Bool × Option String) × Wire :=
  let r := Call t s submitMethod params
  match r.1.2 with
  | some err => ((false, some err), r.2)
  | none =>
    match r.1.1 with
    | .bool success => ((success, none), r.2)
    | v => ((false, some ("unexpected result type: " ++ goTypeName v)), r.2)

/-- Go `RPCClient.SubmitWork`. -/
def SubmitWork (t : Transport) (nonce hash digest : String) (s : Wire) :
    (Bool × Option String) × Wire :=
  let params := [Value.string nonce, Value.string hash, Value.string digest]
  if s.client.successfulMethod = "nogo_getWork" then submitPaired t "nogo_submitWork" params s
  else if s.client.successfulMethod = "miner_getWork" then
    submitPaired t "miner_submitWork" params s
  else if s.client.successfulMethod = "mining_getWork" then
    submitPaired t "mining_submitWork" params s
  else if s.client.successfulMethod = "eth_getWork" then submitPaired t "eth_submitWork" params s
  else submitLoop t "all submitWork methods failed" params submitWorkMethods s

/-- Go `RPCClient.SubmitHashrate`. -/
def SubmitHashrate (t : Transport) (hashrate id : String) (s : Wire) :
    (Bool × Option String) × Wire :=
  let params := [Value.string hashrate, Value.string id]
  if s.client.successfulMethod = "nogo_getWork" then
    submitPaired t "nogo_submitHashrate" params s
  else if s.client.successfulMethod = "miner_getWork" then
    submitPaired t "miner_submitHashrate" params s
  else if s.client.successfulMethod = "mining_getWork" then
    submitPaired t "mining_submitHashrate" params s
  else if s.client.successfulMethod = "eth_getWork" then
    submitPaired t "eth_submitHashrate" params s
  else submitLoop t "all submitHashrate methods failed" params submitHashrateMethods s

/-- Go `RPCClient.GetBlockNumber`. -/
def GetBlockNumber (t : Transport) (s : Wire) : (String × Option String) × Wire :=
  let r := Call t s "eth_blockNumber" []
  match r.1.2 with
  | some err => (("", some err), r.2)
  | none =>
    match r.1.1 with
    | .string blockNumber => ((blockNumber, none), r.2)
    | v => (("", some ("unexpected result type: " ++ goTypeName v)), r.2)

/-! ## Miner session -/

/-- Go `Miner`. `stopCh` names a channel of the channel store of the `Process`; the
mutex `hashrateMu` carries no state between two calls of a sequential run. -/
structure Miner where
  rpcClient : RPCClient
  threads : Int
  etherbase : String
  verbose : Bool
  running : Bool
  stopCh : Nat
  hashrate : Nat
  blocksFound : Int

/-- The goroutines `Start` launches with `go`. -/
inductive Goroutine where
  | monitorHashrate
  | mine (threadID : Int)
  | waitWorkers
  deriving DecidableEq

/-- A miner together with the part of the Go runtime its methods touch: the channels
made so far (entry `i` tells whether channel `i` has been closed), the goroutines
launched so far and the lines written with `log`. -/
structure Process where
  miner : Miner
  chans : List Bool
  spawned : List Goroutine
  logged : List String

/-- Go `make(chan struct{})`: a new open channel. -/
def makeChan (chans : List Bool) : Nat × List Bool := (chans.length, chans ++ [false])

/-- Go `close(ch)`: `none` stands for the run-time panic raised when the channel is
already closed (or does not exist). -/
def closeChan (chans : List Bool) (ch : Nat) : Option (List Bool) :=
  match chans[ch]? with
  | some false => some (chans.set ch true)
  | _ => none

/-- Whether the channel is open (made and not yet closed). -/
def isOpen (chans : List Bool) (ch : Nat) : Bool :=
  match chans[ch]? with
  | some false => true
  | _ => false

/-- Go `NewMiner`, in a runtime that holds nothing else. -/
def NewMiner (rpcClient : RPCClient) (threads : Int) (etherbase : String) (verbose : Bool) :
    Process :=
  let made := makeChan []
  { miner :=
      { rpcClient := rpcClient, threads := threads, etherbase := etherbase, verbose := verbose,
        running := false, stopCh := made.1, hashrate := 0, blocksFound := 0 },
    chans := made.2, spawned := [], logged := [] }

/-- Go `Miner.Start`. `Except.error` is a run-time panic; otherwise the returned `error`
(`none` for `nil`) and the state left behind. -/
def Start (p : Process) : Except String (Option String × Process) :=
  if p.miner.running then
    .ok (some "miner is already running", p)
  else
    let m1 := { p.miner with running := true }
    match closeChan p.chans m1.stopCh with
    | none => .error "close of closed channel"
    | some chans1 =>
      let made := makeChan chans1
      let m2 := { m1 with stopCh := made.1 }
      let workers := (List.range m2.threads.toNat).map (fun i : Nat => Goroutine.mine (i : Int))
      .ok (none,
        { miner := m2, chans := made.2,
          spawned := p.spawned ++ [Goroutine.monitorHashrate] ++ workers ++ [Goroutine.waitWorkers],
          logged :=
            if m2.verbose then
              p.logged ++ ["Mining started with " ++ toString m2.threads ++ " threads"]
            else p.logged })

/-- Go `Miner.Stop`. `Except.error` is a run-time panic. -/
def Stop (p : Process) : Except String Process :=
  if !p.miner.running then
    .ok p
  else
    match closeChan p.chans p.miner.stopCh with
    | none => .error "close of closed channel"
    | some chans1 =>
      .ok { p with
        miner := { p.miner with running := false }, chans := chans1,
        logged := if p.miner.verbose then p.logged ++ ["Stopping mining..."] else p.logged }

/-- What the goroutine of lines 312-318 does once `wg.Wait()` has returned. -/
def workersDone (p : Process) : Process :=
  { p with
    miner := { p.miner with running := false },
    logged := if p.miner.verbose then p.logged ++ ["Mining stopped"] else p.logged }

/-- Go conversion `uint64(i)` of an `int`. -/
def toUint64 (i : Int) : Nat := (i % 2 ^ 64).toNat

/-- Go `Miner.updateHashrate`; the product is a `uint64` product. -/
def updateHashrate (m : Miner) (hashes : Nat) : Miner :=
  { m with hashrate := (hashes * toUint64 m.threads) % 2 ^ 64 }

/-- Go `Miner.GetHashrate`: the returned value and the miner afterwards. -/
def GetHashrate (m : Miner) : Nat × Miner := (m.hashrate, m)

/-- Go `Miner.GetBlocksFound`. -/
def GetBlocksFound (m : Miner) : Int := m.blocksFound

/-- Go `Miner.IsRunning`. -/
def IsRunning (m : Miner) : Bool := m.running

/-! ## Sequences of calls -/

/-- The requests a candidate loop issues when it is not cut short: one per candidate, in
list order, each with the identifier `Call` gives it. -/
def probesFrom (s : Wire) (params : List Value) : List String → List RPCRequest
  | [] => []
  | method :: rest => nextReq s.client method params :: probesFrom (advance s method params) params rest


/-- One step of a session: a call of `Start`, a call of `Stop`, or the waiting
goroutine observing that all worker loops have returned. -/
inductive Step where
  | start
  | stop
  | workersDone
  deriving DecidableEq

/-- Runs the steps in order; a panic ends the run. -/
def runSteps : List Step → Process → Except String Process
  | [], p => .ok p
  | Step.start :: rest, p =>
    match Start p with
    | .error e => .error e
    | .ok r => runSteps rest r.2
  | Step.stop :: rest, p =>
    match Stop p with
    | .error e => .error e
    | .ok q => runSteps rest q
  | Step.workersDone :: rest, p => runSteps rest (workersDone p)

/-- One client operation with its arguments. -/
inductive Op where
  | getWork
  | submitWork (nonce hash digest : String)
  | submitHashrate (hashrate id : String)
  | getBlockNumber

/-- The state after one operation (its return value dropped). -/
def runOp (t : Transport) (s : Wire) : Op → Wire
  | .getWork => (GetWork t s).2
  | .submitWork nonce hash digest => (SubmitWork t nonce hash digest s).2
  | .submitHashrate hashrate id => (SubmitHashrate t hashrate id s).2
  | .getBlockNumber => (GetBlockNumber t s).2

/-- The state after a sequence of operations, in order. -/
def runOps (t : Transport) (s : Wire) (ops : List Op) : Wire := ops.foldl (runOp t) s

/-- The state after `n` consecutive calls of `GetWork`. -/
def pollTimes (t : Transport) : Nat → Wire → Wire
  | 0, s => s
  | n + 1, s => pollTimes t n (GetWork t s).2

/-- `Issues s n s1`: the state `s1` is reached from `s` by handing `n` requests to `Call`
and storing methods, in any order. Every client operation moves along this relation. -/
inductive Issues : Wire → Nat → Wire → Prop where
  | refl (s : Wire) : Issues s 0 s
  | call {s s1 : Wire} {n : Nat} (m : String) (p : List Value) :
      Issues s n s1 → Issues s (n + 1) (advance s1 m p)
  | store {s s1 : Wire} {n : Nat} (m : String) : Issues s n s1 → Issues s n (withMethod s1 m)

/-- The identifiers of the issued requests are the counter values in order and the
counter is the (wrapped) number of issued requests. -/
def Aligned (s : Wire) : Prop :=
  s.client.reqID = wrapInt s.sent.length ∧
  s.sent.map (fun q => q.ID) = (List.range s.sent.length).map (fun j : Nat => wrapInt ((j : Int) + 1))

/-! ## Sample nodes and clients -/

/-- The result `{"raw":"0xdead"}`. -/
def deadWork : Value := Value.object [("raw", Value.string "0xdead")]

/-- A node that implements `nogo_getWork` only. -/
def nogoNode : Transport := fun _ q =>
  if q.Method = "nogo_getWork" then Exchange.result deadWork
  else Exchange.rpcError (-32601) "the method does not exist"

/-- A node that cannot be reached. -/
def deadNode : Transport := fun _ _ => Exchange.sendFailed "connection refused"

/-- A node that answers every request with the boolean `true`. -/
def acceptNode : Transport := fun _ _ => Exchange.result (Value.bool true)

/-- A node that answers every request with the string `"true"`. -/
def stringNode : Transport := fun _ _ => Exchange.result (Value.string "true")

/-- A node that implements `miner_submitWork` only, answering `true`. -/
def minerSubmitNode : Transport := fun _ q =>
  if q.Method = "miner_submitWork" then Exchange.result (Value.bool true)
  else Exchange.rpcError (-32601) "the method does not exist"

/-- A client as `runMiner` creates it, before any request. -/
def freshWire : Wire :=
  { client := NewRPCClient "http://127.0.0.1:8545" "0x0000000000000000000000000000000000000000",
    sent := [] }

/-- The miner `runMiner` builds with the default four threads, before `Start`. -/
def sampleMiner : Process :=
  NewMiner (NewRPCClient "http://127.0.0.1:8545" "0x0000000000000000000000000000000000000000") 4
    "0x0000000000000000000000000000000000000000" false

/-- The same miner after its first `Start`. -/
def startedMiner : Process :=
  match Start sampleMiner with
  | .ok r => r.2
  | .error _ => sampleMiner

/-- A short session: one poll, one solution, one block-number query. -/
def sampleOps : List Op :=
  [Op.getWork, Op.submitWork "0x01" "0xaa" "0xbb", Op.getBlockNumber]

/-! ## Basic facts about `Call` -/

theorem answer_of_failed {x : Exchange} (h : failed x = true) : ∃ e, (answer x).2 = some e := by
  cases x <;> simp [failed, answer] at h ⊢

theorem answer_of_result {x : Exchange} {v : Value} (h : x = Exchange.result v) :
    answer x = (v, none) := by
  subst h; rfl

theorem answer_none_iff (x : Exchange) : (answer x).2 = none ↔ failed x = false := by
  cases x <;> simp [failed, answer]

@[simp] theorem withMethod_sent (s : Wire) (m : String) : (withMethod s m).sent = s.sent := rfl

@[simp] theorem withMethod_method (s : Wire) (m : String) :
    (withMethod s m).client.successfulMethod = m := rfl

@[simp] theorem withMethod_reqID (s : Wire) (m : String) :
    (withMethod s m).client.reqID = s.client.reqID := rfl

@[simp] theorem advance_sent (s : Wire) (m : String) (p : List Value) :
    (advance s m p).sent = s.sent ++ [nextReq s.client m p] := rfl

@[simp] theorem advance_method (s : Wire) (m : String) (p : List Value) :
    (advance s m p).client.successfulMethod = s.client.successfulMethod := rfl

@[simp] theorem advance_reqID (s : Wire) (m : String) (p : List Value) :
    (advance s m p).client.reqID = wrapInt (s.client.reqID + 1) := rfl

theorem nextReq_withMethod (s : Wire) (m k : String) (p : List Value) :
    nextReq (withMethod s k).client m p = nextReq s.client m p := rfl

/-! ## The work-fetch loop -/

theorem getWorkLoop_cons_ok (t : Transport) (m : String) (ms : List String) (s : Wire) (r : Value)
    (h : t s.sent (nextReq s.client m []) = Exchange.result r) :
    getWorkLoop t (m :: ms) s = ((some (newTemplate r), none), withMethod (advance s m []) m) := by
  simp [getWorkLoop, Call, answer_of_result h]

theorem getWorkLoop_cons_failed (t : Transport) (m : String) (ms : List String) (s : Wire)
    (h : failed (t s.sent (nextReq s.client m [])) = true) :
    getWorkLoop t (m :: ms) s = getWorkLoop t ms (advance s m []) := by
  obtain ⟨e, he⟩ := answer_of_failed h
  simp [getWorkLoop, Call, he]

theorem probesFrom_length (p : List Value) :
    ∀ (ms : List String) (s : Wire), (probesFrom s p ms).length = ms.length
  | [], _ => rfl
  | _ :: ms, s => by simp [probesFrom, probesFrom_length p ms]

theorem probesFrom_methods (p : List Value) :
    ∀ (ms : List String) (s : Wire), (probesFrom s p ms).map (fun q => q.Method) = ms
  | [], _ => rfl
  | m :: ms, s => by simp [probesFrom, probesFrom_methods p ms, nextReq]

theorem probesFrom_params (p : List Value) :
    ∀ (ms : List String) (s : Wire), ∀ q ∈ probesFrom s p ms, q.Params = p
  | [], _ => by simp [probesFrom]
  | m :: ms, s => by
    intro q hq
    simp only [probesFrom, List.mem_cons] at hq
    rcases hq with rfl | hq
    · rfl
    · exact probesFrom_params p ms _ q hq

theorem probesFrom_withMethod (p : List Value) (k : String) :
    ∀ (ms : List String) (s : Wire), probesFrom (withMethod s k) p ms = probesFrom s p ms
  | [], _ => rfl
  | m :: ms, s => by
    simp only [probesFrom]
    have h : advance (withMethod s k) m p = withMethod (advance s m p) k := rfl
    rw [h, probesFrom_withMethod p k ms]
    rfl

/-- Discovery stops at the first candidate that answers: if the candidates before
position `i` fail and candidate `i` answers `r`, the loop has issued exactly the first
`i + 1` probes, returns the template of `r` and has stored candidate `i`. -/
theorem getWorkLoop_first_ok (t : Transport) (r : Value) :
    ∀ (ms : List String) (s : Wire) (i : Nat),
      (∀ j q, j < i → (probesFrom s [] ms)[j]? = some q →
        failed (t (s.sent ++ (probesFrom s [] ms).take j) q) = true) →
      (∃ q, (probesFrom s [] ms)[i]? = some q ∧
        t (s.sent ++ (probesFrom s [] ms).take i) q = Exchange.result r) →
      (getWorkLoop t ms s).1 = (some (newTemplate r), none) ∧
      (getWorkLoop t ms s).2.sent = s.sent ++ (probesFrom s [] ms).take (i + 1) ∧
      some (getWorkLoop t ms s).2.client.successfulMethod = ms[i]?
  | [], s, i => by
    intro _ h
    obtain ⟨q, hq, _⟩ := h
    simp [probesFrom] at hq
  | m :: ms, s, 0 => by
    intro _ h
    obtain ⟨q, hq, hr⟩ := h
    simp only [probesFrom, List.getElem?_cons_zero, Option.some.injEq] at hq
    subst hq
    simp only [List.take_zero, List.append_nil] at hr
    rw [getWorkLoop_cons_ok t m ms s r hr]
    simp [probesFrom]
  | m :: ms, s, i + 1 => by
    intro hfail hok
    have h0 : failed (t s.sent (nextReq s.client m [])) = true := by
      have := hfail 0 (nextReq s.client m []) (Nat.succ_pos i) (by simp [probesFrom])
      simpa using this
    rw [getWorkLoop_cons_failed t m ms s h0]
    have ih := getWorkLoop_first_ok t r ms (advance s m []) i
      (by
        intro j q hj hq
        have := hfail (j + 1) q (Nat.succ_lt_succ hj) (by simpa [probesFrom] using hq)
        simpa [probesFrom, List.append_assoc] using this)
      (by
        obtain ⟨q, hq, hr⟩ := hok
        refine ⟨q, by simpa [probesFrom] using hq, ?_⟩
        simpa [probesFrom, List.append_assoc] using hr)
    refine ⟨ih.1, ?_, ?_⟩
    · rw [ih.2.1]; simp [probesFrom, List.append_assoc]
    · rw [ih.2.2]; simp

/-- When no candidate answers, the loop issues every probe, reports the aggregate
error and leaves the stored method as it was. -/
theorem getWorkLoop_all_failed (t : Transport) :
    ∀ (ms : List String) (s : Wire),
      (∀ h q, q.Method ∈ ms → q.Params = [] → failed (t h q) = true) →
      getWorkLoop t ms s =
        ((none, some "all getWork methods failed"),
          { client := { s.client with reqID := (getWorkLoop t ms s).2.client.reqID },
            sent := s.sent ++ probesFrom s [] ms })
  | [], s => by intro _; simp [getWorkLoop, probesFrom]
  | m :: ms, s => by
    intro hall
    have h0 : failed (t s.sent (nextReq s.client m [])) = true :=
      hall _ _ (by simp [nextReq]) rfl
    rw [getWorkLoop_cons_failed t m ms s h0]
    have ih := getWorkLoop_all_failed t ms (advance s m [])
      (fun h q hq hp => hall h q (List.mem_cons_of_mem _ hq) hp)
    rw [ih]
    simp [probesFrom, advance, List.append_assoc]

/-! ## The submit loop -/

theorem isBoolResult_of_failed {x : Exchange} (h : failed x = true) : isBoolResult x = false := by
  cases x <;> simp [failed, isBoolResult] at h ⊢

theorem submitLoop_cons_bool (t : Transport) (ex : String) (p : List Value) (m : String)
    (ms : List String) (s : Wire) (b : Bool)
    (h : t s.sent (nextReq s.client m p) = Exchange.result (Value.bool b)) :
    submitLoop t ex p (m :: ms) s = ((b, none), advance s m p) := by
  simp [submitLoop, Call, answer_of_result h]

theorem submitLoop_cons_skip (t : Transport) (ex : String) (p : List Value) (m : String)
    (ms : List String) (s : Wire) (h : isBoolResult (t s.sent (nextReq s.client m p)) = false) :
    submitLoop t ex p (m :: ms) s = submitLoop t ex p ms (advance s m p) := by
  generalize hx : t s.sent (nextReq s.client m p) = x at h
  cases x with
  | result v => cases v <;> simp [isBoolResult] at h <;> simp [submitLoop, Call, hx, answer]
  | _ => simp [submitLoop, Call, hx, answer]

/-- The submit loop never writes the stored method. -/
theorem submitLoop_method (t : Transport) (ex : String) (p : List Value) :
    ∀ (ms : List String) (s : Wire),
      (submitLoop t ex p ms s).2.client.successfulMethod = s.client.successfulMethod
  | [], _ => rfl
  | m :: ms, s => by
    cases hb : isBoolResult (t s.sent (nextReq s.client m p)) with
    | false =>
      rw [submitLoop_cons_skip t ex p m ms s hb, submitLoop_method t ex p ms]; rfl
    | true =>
      generalize hx : t s.sent (nextReq s.client m p) = x at hb
      cases x with
      | result v =>
        cases v with
        | bool b => rw [submitLoop_cons_bool t ex p m ms s b hx]; rfl
        | _ => simp [isBoolResult] at hb
      | _ => simp [isBoolResult] at hb

/-- When no candidate answers with a boolean, the submit loop issues every probe and
reports the aggregate error. -/
theorem submitLoop_no_bool (t : Transport) (ex : String) (p : List Value) :
    ∀ (ms : List String) (s : Wire),
      (∀ h q, q.Method ∈ ms → q.Params = p → isBoolResult (t h q) = false) →
      (submitLoop t ex p ms s).1 = (false, some ex) ∧
      (submitLoop t ex p ms s).2.sent = s.sent ++ probesFrom s p ms
  | [], s => by intro _; simp [submitLoop, probesFrom]
  | m :: ms, s => by
    intro hall
    have h0 : isBoolResult (t s.sent (nextReq s.client m p)) = false :=
      hall _ _ (by simp [nextReq]) rfl
    rw [submitLoop_cons_skip t ex p m ms s h0]
    have ih := submitLoop_no_bool t ex p ms (advance s m p)
      (fun h q hq hp => hall h q (List.mem_cons_of_mem _ hq) hp)
    refine ⟨ih.1, ?_⟩
    rw [ih.2]
    simp [probesFrom, List.append_assoc]

/-- The paired call issues one request, whatever the answer. -/
theorem submitPaired_state (t : Transport) (m : String) (p : List Value) (s : Wire) :
    (submitPaired t m p s).2 = advance s m p := by
  unfold submitPaired
  simp only [Call]
  split
  · rfl
  · split <;> rfl

theorem submitPaired_bool (t : Transport) (m : String) (p : List Value) (s : Wire) (b : Bool)
    (h : t s.sent (nextReq s.client m p) = Exchange.result (Value.bool b)) :
    (submitPaired t m p s).1 = (b, none) := by
  simp [submitPaired, Call, answer_of_result h]

theorem submitPaired_shape (t : Transport) (m : String) (p : List Value) (s : Wire) (v : Value)
    (h : t s.sent (nextReq s.client m p) = Exchange.result v) (hv : ∀ b, v ≠ Value.bool b) :
    (submitPaired t m p s).1 = (false, some ("unexpected result type: " ++ goTypeName v)) := by
  cases v with
  | bool b => exact absurd rfl (hv b)
  | _ => simp [submitPaired, Call, answer_of_result h]

/-- With no family stored, `SubmitWork` is its candidate loop. -/
theorem SubmitWork_unlocked (t : Transport) (n h d : String) (s : Wire)
    (hs : s.client.successfulMethod ∉ getWorkMethods) :
    SubmitWork t n h d s =
      submitLoop t "all submitWork methods failed"
        [Value.string n, Value.string h, Value.string d] submitWorkMethods s := by
  simp only [getWorkMethods, List.mem_cons, List.mem_singleton, not_or, List.not_mem_nil,
    or_false] at hs
  simp [SubmitWork, hs]

/-- With no family stored, `SubmitHashrate` is its candidate loop. -/
theorem SubmitHashrate_unlocked (t : Transport) (r i : String) (s : Wire)
    (hs : s.client.successfulMethod ∉ getWorkMethods) :
    SubmitHashrate t r i s =
      submitLoop t "all submitHashrate methods failed"
        [Value.string r, Value.string i] submitHashrateMethods s := by
  simp only [getWorkMethods, List.mem_cons, List.mem_singleton, not_or, List.not_mem_nil,
    or_false] at hs
  simp [SubmitHashrate, hs]

theorem empty_not_getWork : ("" : String) ∉ getWorkMethods := by decide

/-! ## `GetWork` -/

theorem failed_false_iff (x : Exchange) : failed x = false ↔ ∃ v, x = Exchange.result v := by
  cases x <;> simp [failed]

theorem GetWork_locked_ok (t : Transport) (s : Wire) (r : Value)
    (hne : s.client.successfulMethod ≠ "")
    (h : t s.sent (nextReq s.client s.client.successfulMethod []) = Exchange.result r) :
    GetWork t s = ((some (newTemplate r), none), advance s s.client.successfulMethod []) := by
  simp [GetWork, hne, Call, answer_of_result h]

theorem GetWork_locked_failed (t : Transport) (s : Wire)
    (hne : s.client.successfulMethod ≠ "")
    (h : failed (t s.sent (nextReq s.client s.client.successfulMethod [])) = true) :
    GetWork t s =
      getWorkLoop t getWorkMethods (withMethod (advance s s.client.successfulMethod []) "") := by
  obtain ⟨e, he⟩ := answer_of_failed h
  simp [GetWork, hne, Call, he]

theorem GetWork_unlocked (t : Transport) (s : Wire) (h : s.client.successfulMethod = "") :
    GetWork t s = getWorkLoop t getWorkMethods s := by
  simp [GetWork, h]

theorem pollTimes_succ (t : Transport) :
    ∀ (n : Nat) (s : Wire), pollTimes t (n + 1) s = (GetWork t (pollTimes t n s)).2
  | 0, _ => rfl
  | n + 1, s => by
    have h := pollTimes_succ t n (GetWork t s).2
    simpa [pollTimes] using h

/-- C1. Sticky lock in `GetWork`. With a non-empty method `m` stored: if the request to
`m` is answered with `r`, the call issues that one request (method `m`, no parameters),
returns the template with header `"raw" ↦ r` and empty transaction and uncle lists, and
keeps `m` stored; `n` consecutive polls during which `m` keeps answering issue exactly
`n` requests, all to `m`; and if the request to `m` fails, the call continues exactly as
`GetWork` on the client with the method cleared, that is with the full discovery loop. -/
theorem getWork_sticky (t : Transport) (s : Wire) (m : String)
    (hm : s.client.successfulMethod = m) (hne : m ≠ "") :
    (∀ r, t s.sent (nextReq s.client m []) = Exchange.result r →
      (GetWork t s).1 = (some (newTemplate r), none) ∧
      (newTemplate r).Header.lookup "raw" = some r ∧
      (newTemplate r).Transactions = [] ∧ (newTemplate r).Uncles = [] ∧
      (GetWork t s).2.sent = s.sent ++ [nextReq s.client m []] ∧
      (nextReq s.client m []).Method = m ∧ (nextReq s.client m []).Params = [] ∧
      (GetWork t s).2.client.successfulMethod = m) ∧
    (∀ n,
      (∀ k, k < n →
        failed (t (pollTimes t k s).sent (nextReq (pollTimes t k s).client m [])) = false) →
      (pollTimes t n s).client.successfulMethod = m ∧
      ∃ issued, (pollTimes t n s).sent = s.sent ++ issued ∧ issued.length = n ∧
        ∀ q ∈ issued, q.Method = m ∧ q.Params = []) ∧
    (failed (t s.sent (nextReq s.client m [])) = true →
      GetWork t s =
        getWorkLoop t getWorkMethods
          { client := { s.client with reqID := wrapInt (s.client.reqID + 1), successfulMethod := "" },
            sent := s.sent ++ [nextReq s.client m []] } ∧
      GetWork t s =
        GetWork t
          { client := { s.client with reqID := wrapInt (s.client.reqID + 1), successfulMethod := "" },
            sent := s.sent ++ [nextReq s.client m []] }) := by
  subst hm
  refine ⟨?_, ?_, ?_⟩
  · intro r hr
    rw [GetWork_locked_ok t s r hne hr]
    simp [newTemplate, nextReq, List.lookup]
  · intro n
    induction n with
    | zero => intro _; exact ⟨rfl, [], by simp [pollTimes], rfl, by simp⟩
    | succ n ih =>
      intro hall
      obtain ⟨hslot, issued, hsent, hlen, hq⟩ := ih (fun k hk => hall k (Nat.lt_succ_of_lt hk))
      obtain ⟨r, hr⟩ := (failed_false_iff _).1 (hall n (Nat.lt_succ_self n))
      rw [← hslot] at hr
      have hne2 : (pollTimes t n s).client.successfulMethod ≠ "" := by rw [hslot]; exact hne
      rw [pollTimes_succ, GetWork_locked_ok t _ r hne2 hr]
      refine ⟨by simpa using hslot, issued ++ [nextReq (pollTimes t n s).client
        (pollTimes t n s).client.successfulMethod []], ?_, by simp [hlen], ?_⟩
      · simp [hsent, List.append_assoc]
      · intro q hqm
        rcases List.mem_append.1 hqm with h1 | h1
        · exact hq q h1
        · simp only [List.mem_singleton] at h1
          subst h1
          exact ⟨hslot, rfl⟩
  · intro hf
    have h1 := GetWork_locked_failed t s hne hf
    refine ⟨h1, ?_⟩
    rw [h1]
    exact (GetWork_unlocked t _ rfl).symm

/-- C1, at a concrete input: a client locked on `nogo_getWork` polling `nogoNode`. -/
theorem getWork_sticky_witness :
    (GetWork nogoNode (withMethod freshWire "nogo_getWork")).1 = (some (newTemplate deadWork), none) ∧
    (GetWork nogoNode (withMethod freshWire "nogo_getWork")).2.sent =
      [{ JSONRPC := "2.0", Method := "nogo_getWork", Params := [], ID := 1 }] ∧
    (GetWork nogoNode (withMethod freshWire "nogo_getWork")).2.client.successfulMethod =
      "nogo_getWork" := by
  have h := (getWork_sticky nogoNode (withMethod freshWire "nogo_getWork") "nogo_getWork" rfl
    (by decide)).1 deadWork rfl
  exact ⟨h.1, h.2.2.2.2.1, h.2.2.2.2.2.2.2⟩

/-! ## Discovery -/

/-- C2. Discovery order and first-success stop in `GetWork`. With no method stored, if
the candidates of `getWorkMethods` before position `i` fail and candidate `i` answers
`r`, the call issues exactly `i + 1` requests, to candidates `0..i` in list order and
with no parameters, stores candidate `i` and returns the template with `"raw" ↦ r`. -/
theorem getWork_discovery_order (t : Transport) (s : Wire) (i : Nat) (r : Value)
    (hslot : s.client.successfulMethod = "") (hi : i < getWorkMethods.length)
    (hfail : ∀ j q, j < i → (probesFrom s [] getWorkMethods)[j]? = some q →
      failed (t (s.sent ++ (probesFrom s [] getWorkMethods).take j) q) = true)
    (hok : ∀ q, (probesFrom s [] getWorkMethods)[i]? = some q →
      t (s.sent ++ (probesFrom s [] getWorkMethods).take i) q = Exchange.result r) :
    (GetWork t s).1 = (some (newTemplate r), none) ∧
    (newTemplate r).Header.lookup "raw" = some r ∧
    (GetWork t s).2.sent = s.sent ++ (probesFrom s [] getWorkMethods).take (i + 1) ∧
    ((probesFrom s [] getWorkMethods).take (i + 1)).length = i + 1 ∧
    ((probesFrom s [] getWorkMethods).take (i + 1)).map (fun q => q.Method) =
      getWorkMethods.take (i + 1) ∧
    (∀ q ∈ (probesFrom s [] getWorkMethods).take (i + 1), q.Params = []) ∧
    some (GetWork t s).2.client.successfulMethod = getWorkMethods[i]? := by
  have hlen := probesFrom_length [] getWorkMethods s
  have hq : ∃ q, (probesFrom s [] getWorkMethods)[i]? = some q :=
    ⟨(probesFrom s [] getWorkMethods)[i], List.getElem?_eq_getElem (by rw [hlen]; exact hi)⟩
  obtain ⟨q, hq⟩ := hq
  have h := getWorkLoop_first_ok t r getWorkMethods s i hfail ⟨q, hq, hok q hq⟩
  rw [GetWork_unlocked t s hslot]
  refine ⟨h.1, by simp [newTemplate, List.lookup], h.2.1, ?_, ?_, ?_, h.2.2⟩
  · rw [List.length_take, hlen]; exact Nat.min_eq_left hi
  · rw [List.map_take, probesFrom_methods]
  · intro q hq
    exact probesFrom_params [] getWorkMethods s q (List.mem_of_mem_take hq)

/-- C2, at a concrete input: `eth_getWork` and `miner_getWork` fail, `nogo_getWork`
answers, so three requests are made and `nogo_getWork` is stored. -/
theorem getWork_discovery_order_witness :
    (GetWork nogoNode freshWire).1 = (some (newTemplate deadWork), none) ∧
    (GetWork nogoNode freshWire).2.sent.map (fun q => q.Method) =
      ["eth_getWork", "miner_getWork", "nogo_getWork"] ∧
    (GetWork nogoNode freshWire).2.client.successfulMethod = "nogo_getWork" := by
  have h := getWork_discovery_order nogoNode freshWire 2 deadWork rfl (by decide)
    (by
      intro j q hj hq
      interval_cases j <;>
        simp [probesFrom, getWorkMethods, nextReq] at hq <;> subst hq <;>
        simp [nogoNode, failed])
    (by
      intro q hq
      simp [probesFrom, getWorkMethods, nextReq] at hq
      subst hq
      simp [nogoNode])
  refine ⟨h.1, ?_, ?_⟩
  · rw [h.2.2.1, List.map_append, h.2.2.2.2.1]; rfl
  · have h7 := h.2.2.2.2.2.2
    simpa [getWorkMethods] using h7

/-! ## Exhaustion -/

/-- C3. Aggregate exhaustion. Whatever is stored, if every work-fetch request (no
parameters, to the stored method or to a candidate) fails, `GetWork` returns no template
and the error "all getWork methods failed", and nothing is stored afterwards. With
nothing stored, if every request to a submit candidate fails, `SubmitWork` returns
`(false, "all submitWork methods failed")` and `SubmitHashrate` returns
`(false, "all submitHashrate methods failed")`, and still nothing is stored. -/
theorem aggregate_exhaustion (t : Transport) (s : Wire) :
    ((∀ h q, q.Params = [] →
        (q.Method = s.client.successfulMethod ∨ q.Method ∈ getWorkMethods) →
        failed (t h q) = true) →
      (GetWork t s).1 = (none, some "all getWork methods failed") ∧
      (GetWork t s).2.client.successfulMethod = "") ∧
    (s.client.successfulMethod = "" → ∀ nonce hash digest,
      (∀ h q, q.Method ∈ submitWorkMethods → failed (t h q) = true) →
      (SubmitWork t nonce hash digest s).1 = (false, some "all submitWork methods failed") ∧
      (SubmitWork t nonce hash digest s).2.client.successfulMethod = "") ∧
    (s.client.successfulMethod = "" → ∀ hashrate id,
      (∀ h q, q.Method ∈ submitHashrateMethods → failed (t h q) = true) →
      (SubmitHashrate t hashrate id s).1 =
        (false, some "all submitHashrate methods failed") ∧
      (SubmitHashrate t hashrate id s).2.client.successfulMethod = "") := by
  refine ⟨?_, ?_, ?_⟩
  · intro hall
    have hloop : ∀ h q, q.Method ∈ getWorkMethods → q.Params = [] → failed (t h q) = true :=
      fun h q hq hp => hall h q hp (Or.inr hq)
    by_cases hne : s.client.successfulMethod = ""
    · rw [GetWork_unlocked t s hne, getWorkLoop_all_failed t getWorkMethods s hloop]
      exact ⟨rfl, hne⟩
    · have h0 : failed (t s.sent (nextReq s.client s.client.successfulMethod [])) = true :=
        hall _ _ rfl (Or.inl rfl)
      rw [GetWork_locked_failed t s hne h0, getWorkLoop_all_failed t getWorkMethods _ hloop]
      exact ⟨rfl, rfl⟩
  · intro hs nonce hash digest hall
    have hu : s.client.successfulMethod ∉ getWorkMethods := by rw [hs]; exact empty_not_getWork
    rw [SubmitWork_unlocked t nonce hash digest s hu]
    refine ⟨(submitLoop_no_bool t _ _ submitWorkMethods s
      (fun h q hq _ => isBoolResult_of_failed (hall h q hq))).1, ?_⟩
    rw [submitLoop_method, hs]
  · intro hs hashrate id hall
    have hu : s.client.successfulMethod ∉ getWorkMethods := by rw [hs]; exact empty_not_getWork
    rw [SubmitHashrate_unlocked t hashrate id s hu]
    refine ⟨(submitLoop_no_bool t _ _ submitHashrateMethods s
      (fun h q hq _ => isBoolResult_of_failed (hall h q hq))).1, ?_⟩
    rw [submitLoop_method, hs]

/-- C3, at a concrete input: an unreachable node, for a client locked on `eth_getWork`
(work fetch) and for a fresh client (submissions). -/
theorem aggregate_exhaustion_witness :
    ((GetWork deadNode (withMethod freshWire "eth_getWork")).1 =
        (none, some "all getWork methods failed") ∧
      (GetWork deadNode (withMethod freshWire "eth_getWork")).2.client.successfulMethod = "") ∧
    ((SubmitWork deadNode "0x01" "0xaa" "0xbb" freshWire).1 =
        (false, some "all submitWork methods failed") ∧
      (SubmitWork deadNode "0x01" "0xaa" "0xbb" freshWire).2.client.successfulMethod = "") ∧
    ((SubmitHashrate deadNode "0x64" "0x01" freshWire).1 =
        (false, some "all submitHashrate methods failed") ∧
      (SubmitHashrate deadNode "0x64" "0x01" freshWire).2.client.successfulMethod = "") :=
  ⟨(aggregate_exhaustion deadNode (withMethod freshWire "eth_getWork")).1 (fun _ _ _ _ => rfl),
   (aggregate_exhaustion deadNode freshWire).2.1 rfl "0x01" "0xaa" "0xbb" (fun _ _ _ => rfl),
   (aggregate_exhaustion deadNode freshWire).2.2 rfl "0x64" "0x01" (fun _ _ _ => rfl)⟩

/-! ## Family pairing -/

/-- C4. Family pairing. When `F_getWork` is stored, for `F` one of eth, miner, nogo and
mining, `SubmitWork` issues exactly one request, to `F_submitWork` with the parameters
`[nonce, hash, digest]`, and `SubmitHashrate` issues exactly one request, to
`F_submitHashrate` with `[hashrate, id]`, whatever the node answers; a boolean answer
`b` is returned as `(b, nil)`. -/
theorem family_pairing (t : Transport) (s : Wire) (F : String)
    (hF : F ∈ ["eth", "miner", "nogo", "mining"])
    (hs : s.client.successfulMethod = F ++ "_getWork") :
    (∀ nonce hash digest,
      (SubmitWork t nonce hash digest s).2.sent =
        s.sent ++ [{ JSONRPC := "2.0", Method := F ++ "_submitWork",
                     Params := [Value.string nonce, Value.string hash, Value.string digest],
                     ID := wrapInt (s.client.reqID + 1) }] ∧
      ∀ b, t s.sent { JSONRPC := "2.0", Method := F ++ "_submitWork",
                      Params := [Value.string nonce, Value.string hash, Value.string digest],
                      ID := wrapInt (s.client.reqID + 1) } = Exchange.result (Value.bool b) →
        (SubmitWork t nonce hash digest s).1 = (b, none)) ∧
    (∀ hashrate id,
      (SubmitHashrate t hashrate id s).2.sent =
        s.sent ++ [{ JSONRPC := "2.0", Method := F ++ "_submitHashrate",
                     Params := [Value.string hashrate, Value.string id],
                     ID := wrapInt (s.client.reqID + 1) }] ∧
      ∀ b, t s.sent { JSONRPC := "2.0", Method := F ++ "_submitHashrate",
                      Params := [Value.string hashrate, Value.string id],
                      ID := wrapInt (s.client.reqID + 1) } = Exchange.result (Value.bool b) →
        (SubmitHashrate t hashrate id s).1 = (b, none)) := by
  simp only [List.mem_cons, List.mem_singleton, List.not_mem_nil, or_false] at hF
  rcases hF with rfl | rfl | rfl | rfl
  all_goals
    have hs2 := hs
    simp only [String.reduceAppend] at hs2
    refine ⟨fun nonce hash digest => ⟨?_, fun b hb => ?_⟩, fun hashrate id => ⟨?_, fun b hb => ?_⟩⟩
    · simp [SubmitWork, hs2, submitPaired_state, nextReq]
    · simp only [SubmitWork, hs2, String.reduceEq, if_true, if_false, reduceIte]
      exact submitPaired_bool t _ _ s b hb
    · simp [SubmitHashrate, hs2, submitPaired_state, nextReq]
    · simp only [SubmitHashrate, hs2, String.reduceEq, if_true, if_false, reduceIte]
      exact submitPaired_bool t _ _ s b hb

/-- C4, at a concrete input: a client locked on `nogo_getWork`, a node answering `true`. -/
theorem family_pairing_witness :
    ((SubmitWork acceptNode "0x01" "0xaa" "0xbb" (withMethod freshWire "nogo_getWork")).2.sent =
        [{ JSONRPC := "2.0", Method := "nogo_submitWork",
           Params := [Value.string "0x01", Value.string "0xaa", Value.string "0xbb"], ID := 1 }] ∧
      (SubmitWork acceptNode "0x01" "0xaa" "0xbb" (withMethod freshWire "nogo_getWork")).1 =
        (true, none)) ∧
    ((SubmitHashrate acceptNode "0x64" "0x01" (withMethod freshWire "nogo_getWork")).2.sent =
        [{ JSONRPC := "2.0", Method := "nogo_submitHashrate",
           Params := [Value.string "0x64", Value.string "0x01"], ID := 1 }] ∧
      (SubmitHashrate acceptNode "0x64" "0x01" (withMethod freshWire "nogo_getWork")).1 =
        (true, none)) := by
  have h := family_pairing acceptNode (withMethod freshWire "nogo_getWork") "nogo" (by decide) rfl
  exact ⟨⟨(h.1 "0x01" "0xaa" "0xbb").1, (h.1 "0x01" "0xaa" "0xbb").2 true rfl⟩,
    ⟨(h.2 "0x64" "0x01").1, (h.2 "0x64" "0x01").2 true rfl⟩⟩

/-! ## Requests issued by an operation -/

theorem Issues.trans {a b c : Wire} {n k : Nat} (h1 : Issues a n b) (h2 : Issues b k c) :
    Issues a (n + k) c := by
  induction h2 with
  | refl => simpa using h1
  | call m p _ ih => exact Issues.call m p ih
  | store m _ ih => exact Issues.store m ih

theorem Issues.sent {a b : Wire} {n : Nat} (h : Issues a n b) :
    ∃ issued, b.sent = a.sent ++ issued ∧ issued.length = n := by
  induction h with
  | refl => exact ⟨[], by simp, rfl⟩
  | call m p _ ih =>
    obtain ⟨l, hl, hn⟩ := ih
    exact ⟨_, by rw [advance_sent, hl, List.append_assoc], by simp [hn]⟩
  | store m _ ih => simpa using ih

theorem wrapInt_succ (x : Int) : wrapInt (wrapInt x + 1) = wrapInt (x + 1) := by
  unfold wrapInt; omega

theorem wrapInt_of_range (x : Int) (h1 : -2 ^ 63 ≤ x) (h2 : x < 2 ^ 63) : wrapInt x = x := by
  unfold wrapInt; omega

theorem Aligned.advance {s : Wire} (h : Aligned s) (m : String) (p : List Value) :
    Aligned (advance s m p) := by
  obtain ⟨h1, h2⟩ := h
  have hid : wrapInt (s.client.reqID + 1) = wrapInt ((s.sent.length : Int) + 1) := by
    rw [h1, wrapInt_succ]
  refine ⟨?_, ?_⟩
  · simp [hid]
  · simp [List.range_succ, h2, nextReq, hid]

theorem Issues.aligned {a b : Wire} {n : Nat} (h : Issues a n b) (ha : Aligned a) : Aligned b := by
  induction h with
  | refl => exact ha
  | call m p _ ih => exact ih.advance m p
  | store m _ ih => exact ih

theorem getWorkLoop_issues (t : Transport) :
    ∀ (ms : List String) (s : Wire),
      ∃ n, n ≤ ms.length ∧ (ms ≠ [] → 1 ≤ n) ∧ Issues s n (getWorkLoop t ms s).2
  | [], s => ⟨0, le_refl _, fun h => absurd rfl h, Issues.refl s⟩
  | m :: ms, s => by
    cases hf : failed (t s.sent (nextReq s.client m [])) with
    | true =>
      obtain ⟨n, hn, _, hi⟩ := getWorkLoop_issues t ms (advance s m [])
      rw [getWorkLoop_cons_failed t m ms s hf]
      refine ⟨1 + n, by simp only [List.length_cons]; omega, fun _ => by omega, ?_⟩
      exact Issues.trans (Issues.call m [] (Issues.refl s)) hi
    | false =>
      obtain ⟨r, hr⟩ := (failed_false_iff _).1 hf
      rw [getWorkLoop_cons_ok t m ms s r hr]
      exact ⟨1, by simp, fun _ => le_refl _, Issues.store m (Issues.call m [] (Issues.refl s))⟩

theorem submitLoop_issues (t : Transport) (ex : String) (p : List Value) :
    ∀ (ms : List String) (s : Wire),
      ∃ n, n ≤ ms.length ∧ (ms ≠ [] → 1 ≤ n) ∧ Issues s n (submitLoop t ex p ms s).2
  | [], s => ⟨0, le_refl _, fun h => absurd rfl h, Issues.refl s⟩
  | m :: ms, s => by
    cases hb : isBoolResult (t s.sent (nextReq s.client m p)) with
    | false =>
      obtain ⟨n, hn, _, hi⟩ := submitLoop_issues t ex p ms (advance s m p)
      rw [submitLoop_cons_skip t ex p m ms s hb]
      refine ⟨1 + n, by simp only [List.length_cons]; omega, fun _ => by omega, ?_⟩
      exact Issues.trans (Issues.call m p (Issues.refl s)) hi
    | true =>
      generalize hx : t s.sent (nextReq s.client m p) = x at hb
      cases x with
      | result v =>
        cases v with
        | bool b =>
          rw [submitLoop_cons_bool t ex p m ms s b hx]
          exact ⟨1, by simp, fun _ => le_refl _, Issues.call m p (Issues.refl s)⟩
        | _ => simp [isBoolResult] at hb
      | _ => simp [isBoolResult] at hb

theorem GetWork_issues (t : Transport) (s : Wire) :
    ∃ n, 1 ≤ n ∧ n ≤ 5 ∧ Issues s n (GetWork t s).2 := by
  by_cases hne : s.client.successfulMethod = ""
  · obtain ⟨n, hn, h1, hi⟩ := getWorkLoop_issues t getWorkMethods s
    rw [GetWork_unlocked t s hne]
    exact ⟨n, h1 (by decide), le_trans hn (by decide), hi⟩
  · cases hf : failed (t s.sent (nextReq s.client s.client.successfulMethod [])) with
    | true =>
      obtain ⟨n, hn, _, hi⟩ := getWorkLoop_issues t getWorkMethods
        (withMethod (advance s s.client.successfulMethod []) "")
      rw [GetWork_locked_failed t s hne hf]
      have hn4 : n ≤ 4 := hn
      refine ⟨1 + n, by omega, by omega, ?_⟩
      exact Issues.trans (Issues.store "" (Issues.call _ [] (Issues.refl s))) hi
    | false =>
      obtain ⟨r, hr⟩ := (failed_false_iff _).1 hf
      rw [GetWork_locked_ok t s r hne hr]
      exact ⟨1, le_refl _, by decide, Issues.call _ [] (Issues.refl s)⟩

theorem submitPaired_issues (t : Transport) (m : String) (p : List Value) (s : Wire) :
    Issues s 1 (submitPaired t m p s).2 := by
  rw [submitPaired_state]
  exact Issues.call m p (Issues.refl s)

theorem SubmitWork_issues (t : Transport) (n h d : String) (s : Wire) :
    ∃ k, 1 ≤ k ∧ k ≤ 4 ∧ Issues s k (SubmitWork t n h d s).2 := by
  unfold SubmitWork
  simp only
  split_ifs
  · exact ⟨1, le_refl _, by decide, submitPaired_issues t _ _ s⟩
  · exact ⟨1, le_refl _, by decide, submitPaired_issues t _ _ s⟩
  · exact ⟨1, le_refl _, by decide, submitPaired_issues t _ _ s⟩
  · exact ⟨1, le_refl _, by decide, submitPaired_issues t _ _ s⟩
  · obtain ⟨k, hk, h1, hi⟩ := submitLoop_issues t "all submitWork methods failed"
      [Value.string n, Value.string h, Value.string d] submitWorkMethods s
    exact ⟨k, h1 (by decide), le_trans hk (by decide), hi⟩

theorem SubmitHashrate_issues (t : Transport) (r i : String) (s : Wire) :
    ∃ k, 1 ≤ k ∧ k ≤ 4 ∧ Issues s k (SubmitHashrate t r i s).2 := by
  unfold SubmitHashrate
  simp only
  split_ifs
  · exact ⟨1, le_refl _, by decide, submitPaired_issues t _ _ s⟩
  · exact ⟨1, le_refl _, by decide, submitPaired_issues t _ _ s⟩
  · exact ⟨1, le_refl _, by decide, submitPaired_issues t _ _ s⟩
  · exact ⟨1, le_refl _, by decide, submitPaired_issues t _ _ s⟩
  · obtain ⟨k, hk, h1, hi⟩ := submitLoop_issues t "all submitHashrate methods failed"
      [Value.string r, Value.string i] submitHashrateMethods s
    exact ⟨k, h1 (by decide), le_trans hk (by decide), hi⟩

theorem GetBlockNumber_state (t : Transport) (s : Wire) :
    (GetBlockNumber t s).2 = advance s "eth_blockNumber" [] := by
  unfold GetBlockNumber
  simp only [Call]
  split
  · rfl
  · split <;> rfl

theorem SubmitWork_method (t : Transport) (n h d : String) (s : Wire) :
    (SubmitWork t n h d s).2.client.successfulMethod = s.client.successfulMethod := by
  unfold SubmitWork
  simp only
  split_ifs <;> first
    | (rw [submitPaired_state]; rfl)
    | exact submitLoop_method t _ _ _ s

theorem SubmitHashrate_method (t : Transport) (r i : String) (s : Wire) :
    (SubmitHashrate t r i s).2.client.successfulMethod = s.client.successfulMethod := by
  unfold SubmitHashrate
  simp only
  split_ifs <;> first
    | (rw [submitPaired_state]; rfl)
    | exact submitLoop_method t _ _ _ s

theorem submitLoop_cons_sent (t : Transport) (ex : String) (p : List Value) (m : String)
    (ms : List String) (s : Wire) :
    ∃ rest, (submitLoop t ex p (m :: ms) s).2.sent = s.sent ++ nextReq s.client m p :: rest := by
  cases hb : isBoolResult (t s.sent (nextReq s.client m p)) with
  | false =>
    obtain ⟨n, _, _, hi⟩ := submitLoop_issues t ex p ms (advance s m p)
    obtain ⟨l, hl, _⟩ := hi.sent
    rw [submitLoop_cons_skip t ex p m ms s hb, hl]
    exact ⟨l, by simp [List.append_assoc]⟩
  | true =>
    generalize hx : t s.sent (nextReq s.client m p) = x at hb
    cases x with
    | result v =>
      cases v with
      | bool b =>
        rw [submitLoop_cons_bool t ex p m ms s b hx]
        exact ⟨[], rfl⟩
      | _ => simp [isBoolResult] at hb
    | _ => simp [isBoolResult] at hb

/-- A template comes out of the loop only through a candidate, which is then stored and
is the method of the last request issued. -/
theorem getWorkLoop_some (t : Transport) :
    ∀ (ms : List String) (s : Wire) (tpl : BlockTemplate),
      (getWorkLoop t ms s).1.1 = some tpl →
      (getWorkLoop t ms s).2.client.successfulMethod ∈ ms ∧
      (getWorkLoop t ms s).2.sent.getLast?.map (fun q => q.Method) =
        some (getWorkLoop t ms s).2.client.successfulMethod
  | [], s, tpl => by simp [getWorkLoop]
  | m :: ms, s, tpl => by
    cases hf : failed (t s.sent (nextReq s.client m [])) with
    | true =>
      rw [getWorkLoop_cons_failed t m ms s hf]
      intro h
      have ih := getWorkLoop_some t ms (advance s m []) tpl h
      exact ⟨List.mem_cons_of_mem _ ih.1, ih.2⟩
    | false =>
      obtain ⟨r, hr⟩ := (failed_false_iff _).1 hf
      rw [getWorkLoop_cons_ok t m ms s r hr]
      intro _
      simp [nextReq]

/-! ## Shape errors -/

theorem shape_ne_exhausted (v : Value) :
    some ("unexpected result type: " ++ goTypeName v) ≠ some "all submitWork methods failed" := by
  cases v <;> simp [goTypeName]

/-- C5, as stated, fails on a client with nothing stored: against a node answering the
string `"true"`, `SubmitWork` requests all four candidates and returns the aggregate
error. -/
theorem submitWork_shape_counterexample :
    freshWire.client.successfulMethod = "" ∧
    (SubmitWork stringNode "0x01" "0xaa" "0xbb" freshWire).1 =
      (false, some "all submitWork methods failed") ∧
    (SubmitWork stringNode "0x01" "0xaa" "0xbb" freshWire).2.sent.map (fun q => q.Method) =
      ["nogo_submitWork", "miner_submitWork", "mining_submitWork", "eth_submitWork"] := by
  refine ⟨rfl, ?_, ?_⟩ <;>
    simp [SubmitWork, freshWire, NewRPCClient, submitWorkMethods, submitLoop, Call, stringNode,
      answer, advance, nextReq]

/-- C5, amended. With `F_getWork` stored, a result that is not a boolean makes
`SubmitWork` return the error "unexpected result type: T" (not the aggregate error)
after exactly one request, to `F_submitWork`. With nothing stored, a result that is not
a boolean is passed over like a failed candidate: when every candidate answers that
way, all four are requested in list order and the aggregate error is returned. -/
theorem submitWork_shape_error (t : Transport) (s : Wire) (nonce hash digest : String) :
    (∀ F, F ∈ ["eth", "miner", "nogo", "mining"] →
      s.client.successfulMethod = F ++ "_getWork" →
      ∀ v, (∀ b, v ≠ Value.bool b) →
      t s.sent (nextReq s.client (F ++ "_submitWork")
        [Value.string nonce, Value.string hash, Value.string digest]) = Exchange.result v →
      (SubmitWork t nonce hash digest s).1 =
        (false, some ("unexpected result type: " ++ goTypeName v)) ∧
      (SubmitWork t nonce hash digest s).1.2 ≠ some "all submitWork methods failed" ∧
      (SubmitWork t nonce hash digest s).2.sent =
        s.sent ++ [nextReq s.client (F ++ "_submitWork")
          [Value.string nonce, Value.string hash, Value.string digest]]) ∧
    (s.client.successfulMethod = "" →
      (∀ h q, q.Method ∈ submitWorkMethods → ∃ v, t h q = Exchange.result v ∧ ∀ b, v ≠ Value.bool b) →
      (SubmitWork t nonce hash digest s).1 = (false, some "all submitWork methods failed") ∧
      (SubmitWork t nonce hash digest s).2.sent =
        s.sent ++ probesFrom s [Value.string nonce, Value.string hash, Value.string digest]
          submitWorkMethods ∧
      (probesFrom s [Value.string nonce, Value.string hash, Value.string digest]
          submitWorkMethods).map (fun q => q.Method) = submitWorkMethods) := by
  refine ⟨?_, ?_⟩
  · intro F hF hs v hv hr
    simp only [List.mem_cons, List.mem_singleton, List.not_mem_nil, or_false] at hF
    have key : SubmitWork t nonce hash digest s =
        submitPaired t (F ++ "_submitWork")
          [Value.string nonce, Value.string hash, Value.string digest] s := by
      rcases hF with rfl | rfl | rfl | rfl <;>
        simp only [String.reduceAppend] at hs ⊢ <;>
        simp [SubmitWork, hs]
    rw [key, submitPaired_state, submitPaired_shape t _ _ s v hr hv]
    exact ⟨rfl, shape_ne_exhausted v, rfl⟩
  · intro hs hall
    have hu : s.client.successfulMethod ∉ getWorkMethods := by rw [hs]; exact empty_not_getWork
    rw [SubmitWork_unlocked t nonce hash digest s hu]
    have h := submitLoop_no_bool t "all submitWork methods failed"
      [Value.string nonce, Value.string hash, Value.string digest] submitWorkMethods s
      (fun h q hq _ => by
        obtain ⟨v, hv, hnb⟩ := hall h q hq
        rw [hv]
        cases v with
        | bool b => exact absurd rfl (hnb b)
        | _ => rfl)
    exact ⟨h.1, h.2, probesFrom_methods _ _ _⟩

/-- C5 amended, at concrete inputs: the node answering the string `"true"`, for a
client locked on `nogo_getWork` and for a fresh client. -/
theorem submitWork_shape_error_witness :
    ((SubmitWork stringNode "0x01" "0xaa" "0xbb" (withMethod freshWire "nogo_getWork")).1 =
        (false, some "unexpected result type: string") ∧
      (SubmitWork stringNode "0x01" "0xaa" "0xbb" (withMethod freshWire "nogo_getWork")).2.sent =
        [{ JSONRPC := "2.0", Method := "nogo_submitWork",
           Params := [Value.string "0x01", Value.string "0xaa", Value.string "0xbb"], ID := 1 }]) ∧
    (SubmitWork stringNode "0x01" "0xaa" "0xbb" freshWire).1 =
      (false, some "all submitWork methods failed") := by
  have h := submitWork_shape_error stringNode (withMethod freshWire "nogo_getWork")
    "0x01" "0xaa" "0xbb"
  have h1 := h.1 "nogo" (by decide) rfl (Value.string "true") (fun b hb => by cases hb) rfl
  have h2 := (submitWork_shape_error stringNode freshWire "0x01" "0xaa" "0xbb").2 rfl
    (fun _ _ _ => ⟨Value.string "true", rfl, fun b hb => by cases hb⟩)
  exact ⟨⟨h1.1, h1.2.2⟩, h2.1⟩

/-! ## Stickiness -/

/-- C6, as stated, fails for `SubmitWork`: on a client with nothing stored the call
succeeds through `miner_submitWork` (after `nogo_submitWork` failed), and the next call
again issues its first request to `nogo_submitWork`. -/
theorem submit_sticky_counterexample :
    freshWire.client.successfulMethod = "" ∧
    (SubmitWork minerSubmitNode "0x01" "0xaa" "0xbb" freshWire).1 = (true, none) ∧
    (SubmitWork minerSubmitNode "0x01" "0xaa" "0xbb" freshWire).2.sent.map (fun q => q.Method) =
      ["nogo_submitWork", "miner_submitWork"] ∧
    (SubmitWork minerSubmitNode "0x02" "0xcc" "0xdd"
        (SubmitWork minerSubmitNode "0x01" "0xaa" "0xbb" freshWire).2).2.sent.map
        (fun q => q.Method) =
      ["nogo_submitWork", "miner_submitWork", "nogo_submitWork", "miner_submitWork"] := by
  refine ⟨rfl, ?_, ?_, ?_⟩ <;>
    simp [SubmitWork, freshWire, NewRPCClient, submitWorkMethods, submitLoop, Call,
      minerSubmitNode, answer, advance, nextReq]

/-- C6, amended. Stickiness holds for `GetWork`: when a call returns a template, the
method of its last request is stored (and is not empty), and every later `GetWork` on a
client that still stores it issues its first request to that method and no other request
unless that one fails. `SubmitWork` and `SubmitHashrate` never store a method: they
leave the stored method as it was, and with no work-fetch method stored each call
begins again at the first candidate of its list. -/
theorem candidate_stickiness (t : Transport) (s : Wire) :
    (∀ tpl, (GetWork t s).1.1 = some tpl →
      (GetWork t s).2.client.successfulMethod ≠ "" ∧
      (GetWork t s).2.sent.getLast?.map (fun q => q.Method) =
        some (GetWork t s).2.client.successfulMethod ∧
      ∀ (t2 : Transport) (s2 : Wire),
        s2.client.successfulMethod = (GetWork t s).2.client.successfulMethod →
        ∃ rest,
          (GetWork t2 s2).2.sent =
            s2.sent ++ nextReq s2.client (GetWork t s).2.client.successfulMethod [] :: rest ∧
          (failed (t2 s2.sent (nextReq s2.client (GetWork t s).2.client.successfulMethod [])) =
            false → rest = [])) ∧
    (∀ nonce hash digest,
      (SubmitWork t nonce hash digest s).2.client.successfulMethod = s.client.successfulMethod) ∧
    (∀ hashrate id,
      (SubmitHashrate t hashrate id s).2.client.successfulMethod = s.client.successfulMethod) ∧
    (s.client.successfulMethod ∉ getWorkMethods →
      (∀ nonce hash digest, ∃ rest,
        (SubmitWork t nonce hash digest s).2.sent =
          s.sent ++ nextReq s.client "nogo_submitWork"
            [Value.string nonce, Value.string hash, Value.string digest] :: rest) ∧
      (∀ hashrate id, ∃ rest,
        (SubmitHashrate t hashrate id s).2.sent =
          s.sent ++ nextReq s.client "nogo_submitHashrate"
            [Value.string hashrate, Value.string id] :: rest)) := by
  refine ⟨?_, fun n h d => SubmitWork_method t n h d s,
    fun r i => SubmitHashrate_method t r i s, ?_⟩
  · intro tpl htpl
    have hstored : (GetWork t s).2.client.successfulMethod ≠ "" ∧
        (GetWork t s).2.sent.getLast?.map (fun q => q.Method) =
          some (GetWork t s).2.client.successfulMethod := by
      have hmem : ∀ m, m ∈ getWorkMethods → m ≠ "" := by decide
      by_cases hne : s.client.successfulMethod = ""
      · rw [GetWork_unlocked t s hne] at htpl ⊢
        have h := getWorkLoop_some t getWorkMethods s tpl htpl
        exact ⟨hmem _ h.1, h.2⟩
      · cases hf : failed (t s.sent (nextReq s.client s.client.successfulMethod [])) with
        | true =>
          rw [GetWork_locked_failed t s hne hf] at htpl ⊢
          have h := getWorkLoop_some t getWorkMethods _ tpl htpl
          exact ⟨hmem _ h.1, h.2⟩
        | false =>
          obtain ⟨r, hr⟩ := (failed_false_iff _).1 hf
          rw [GetWork_locked_ok t s r hne hr]
          exact ⟨hne, by simp [nextReq]⟩
    refine ⟨hstored.1, hstored.2, ?_⟩
    intro t2 s2 hs2
    rw [← hs2]
    have hne2 : s2.client.successfulMethod ≠ "" := by rw [hs2]; exact hstored.1
    cases hf : failed (t2 s2.sent (nextReq s2.client s2.client.successfulMethod [])) with
    | true =>
      obtain ⟨n, _, _, hi⟩ := getWorkLoop_issues t2 getWorkMethods
        (withMethod (advance s2 s2.client.successfulMethod []) "")
      obtain ⟨l, hl, _⟩ := hi.sent
      rw [GetWork_locked_failed t2 s2 hne2 hf, hl]
      exact ⟨l, by simp [List.append_assoc], fun h => by cases h⟩
    | false =>
      obtain ⟨r, hr⟩ := (failed_false_iff _).1 hf
      rw [GetWork_locked_ok t2 s2 r hne2 hr]
      exact ⟨[], rfl, fun _ => rfl⟩
  · intro hu
    refine ⟨fun n h d => ?_, fun r i => ?_⟩
    · rw [SubmitWork_unlocked t n h d s hu]
      exact submitLoop_cons_sent t _ _ _ _ s
    · rw [SubmitHashrate_unlocked t r i s hu]
      exact submitLoop_cons_sent t _ _ _ _ s

/-- C6 amended, at concrete inputs: discovery against `nogoNode` stores `nogo_getWork`
and the next poll asks `nogo_getWork` only; a fresh client begins `SubmitWork` at
`nogo_submitWork`. -/
theorem candidate_stickiness_witness :
    ((GetWork nogoNode freshWire).2.client.successfulMethod ≠ "" ∧
      ∃ rest,
        (GetWork nogoNode (GetWork nogoNode freshWire).2).2.sent =
          (GetWork nogoNode freshWire).2.sent ++
            nextReq (GetWork nogoNode freshWire).2.client
              (GetWork nogoNode freshWire).2.client.successfulMethod [] :: rest) ∧
    ∃ rest,
      (SubmitWork minerSubmitNode "0x01" "0xaa" "0xbb" freshWire).2.sent =
        freshWire.sent ++ nextReq freshWire.client "nogo_submitWork"
          [Value.string "0x01", Value.string "0xaa", Value.string "0xbb"] :: rest := by
  have hg := (candidate_stickiness nogoNode freshWire).1 (newTemplate deadWork)
    (by simp [GetWork, freshWire, NewRPCClient, getWorkMethods, getWorkLoop, Call, nogoNode,
      answer, advance, nextReq, withMethod])
  obtain ⟨rest, hrest, _⟩ := hg.2.2 nogoNode (GetWork nogoNode freshWire).2 rfl
  have hsub := ((candidate_stickiness minerSubmitNode freshWire).2.2.2 (by decide)).1
    "0x01" "0xaa" "0xbb"
  exact ⟨⟨hg.1, rest, hrest⟩, hsub⟩

/-! ## Request identifiers -/

theorem runOp_issues (t : Transport) (s : Wire) (op : Op) :
    ∃ n, 1 ≤ n ∧
      n ≤ (match op with
        | Op.getWork => 5
        | Op.getBlockNumber => 1
        | _ => 4) ∧
      Issues s n (runOp t s op) := by
  cases op with
  | getWork => exact GetWork_issues t s
  | submitWork n h d => exact SubmitWork_issues t n h d s
  | submitHashrate r i => exact SubmitHashrate_issues t r i s
  | getBlockNumber =>
    refine ⟨1, le_refl _, le_refl _, ?_⟩
    simp only [runOp, GetBlockNumber_state]
    exact Issues.call _ _ (Issues.refl s)

theorem runOps_issues (t : Transport) :
    ∀ (ops : List Op) (s : Wire), ∃ n, Issues s n (runOps t s ops)
  | [], s => ⟨0, Issues.refl s⟩
  | op :: ops, s => by
    obtain ⟨n, _, _, h1⟩ := runOp_issues t s op
    obtain ⟨k, h2⟩ := runOps_issues t ops (runOp t s op)
    exact ⟨n + k, by simpa [runOps] using Issues.trans h1 h2⟩

theorem aligned_new (url etherbase : String) :
    Aligned { client := NewRPCClient url etherbase, sent := [] } := by
  constructor
  · simp [NewRPCClient, wrapInt]
  · simp

theorem Aligned.exact {s : Wire} (h : Aligned s) (hlen : (s.sent.length : Int) < 2 ^ 63) :
    s.client.reqID = s.sent.length ∧
    s.sent.map (fun q => q.ID) = (List.range s.sent.length).map (fun j : Nat => (j : Int) + 1) := by
  obtain ⟨h1, h2⟩ := h
  refine ⟨?_, ?_⟩
  · rw [h1]
    exact wrapInt_of_range _ (by omega) hlen
  · rw [h2]
    apply List.map_congr_left
    intro j hj
    have hj2 : j < s.sent.length := List.mem_range.1 hj
    exact wrapInt_of_range _ (by omega) (by omega)

/-- C9. Request-identifier discipline. `Call` increments the counter once and gives the
new value to the request, whatever the exchange returns. For a client created by
`NewRPCClient` and any sequence of `GetWork`, `SubmitWork`, `SubmitHashrate` and
`GetBlockNumber` against any transport, the identifiers of the issued requests are the
64-bit values of `1, 2, ..., k` in issue order and the counter is that of `k`; as long as
fewer than `2^63` requests have been issued they are exactly `1, 2, ..., k` and the
counter is `k`. Each further operation issues between one and five requests (at most
five for `GetWork`, four for a submission, one for `GetBlockNumber`) and raises the
counter by the number of requests it issued. -/
theorem request_ids_sequential (t : Transport) :
    (∀ (s : Wire) (method : String) (params : List Value),
      (Call t s method params).2.sent = s.sent ++ [nextReq s.client method params] ∧
      (nextReq s.client method params).ID = wrapInt (s.client.reqID + 1) ∧
      (Call t s method params).2.client.reqID = wrapInt (s.client.reqID + 1) ∧
      (-2 ^ 63 ≤ s.client.reqID → s.client.reqID + 1 < 2 ^ 63 →
        (Call t s method params).2.client.reqID = s.client.reqID + 1)) ∧
    (∀ (url etherbase : String) (ops : List Op),
      (runOps t { client := NewRPCClient url etherbase, sent := [] } ops).client.reqID =
        wrapInt (runOps t { client := NewRPCClient url etherbase, sent := [] } ops).sent.length ∧
      (runOps t { client := NewRPCClient url etherbase, sent := [] } ops).sent.map (fun q => q.ID) =
        (List.range (runOps t { client := NewRPCClient url etherbase, sent := [] } ops).sent.length).map
          (fun j : Nat => wrapInt ((j : Int) + 1)) ∧
      (((runOps t { client := NewRPCClient url etherbase, sent := [] } ops).sent.length : Int) <
          2 ^ 63 →
        (runOps t { client := NewRPCClient url etherbase, sent := [] } ops).client.reqID =
          (runOps t { client := NewRPCClient url etherbase, sent := [] } ops).sent.length ∧
        (runOps t { client := NewRPCClient url etherbase, sent := [] } ops).sent.map
            (fun q => q.ID) =
          (List.range
            (runOps t { client := NewRPCClient url etherbase, sent := [] } ops).sent.length).map
            (fun j : Nat => (j : Int) + 1)) ∧
      ∀ op : Op, ∃ issued : List RPCRequest,
        (runOp t (runOps t { client := NewRPCClient url etherbase, sent := [] } ops) op).sent =
          (runOps t { client := NewRPCClient url etherbase, sent := [] } ops).sent ++ issued ∧
        1 ≤ issued.length ∧
        issued.length ≤ (match op with
          | Op.getWork => 5
          | Op.getBlockNumber => 1
          | _ => 4) ∧
        (((runOp t (runOps t { client := NewRPCClient url etherbase, sent := [] } ops) op).sent.length
            : Int) < 2 ^ 63 →
          (runOp t (runOps t { client := NewRPCClient url etherbase, sent := [] } ops) op).client.reqID =
            (runOps t { client := NewRPCClient url etherbase, sent := [] } ops).client.reqID +
              issued.length)) := by
  refine ⟨?_, ?_⟩
  · intro s method params
    refine ⟨rfl, rfl, rfl, fun h1 h2 => ?_⟩
    exact wrapInt_of_range _ (by omega) h2
  · intro url etherbase ops
    obtain ⟨n, hn⟩ := runOps_issues t ops { client := NewRPCClient url etherbase, sent := [] }
    have hal := hn.aligned (aligned_new url etherbase)
    refine ⟨hal.1, hal.2, fun hlen => hal.exact hlen, ?_⟩
    intro op
    obtain ⟨k, hk1, hk2, hk⟩ := runOp_issues t
      (runOps t { client := NewRPCClient url etherbase, sent := [] } ops) op
    obtain ⟨issued, hsent, hlen⟩ := hk.sent
    refine ⟨issued, hsent, by omega, by rw [hlen]; exact hk2, fun hbound => ?_⟩
    have hal2 := hk.aligned hal
    have hl2 : (runOp t (runOps t { client := NewRPCClient url etherbase, sent := [] } ops) op).sent.length =
        (runOps t { client := NewRPCClient url etherbase, sent := [] } ops).sent.length +
          issued.length := by
      rw [hsent, List.length_append]
    have e2 := (hal2.exact hbound).1
    have e1 := (hal.exact (by rw [hl2] at hbound; push_cast at hbound; omega)).1
    rw [e2, e1, hl2]
    push_cast
    rfl

/-- C9, at a concrete input: a poll that discovers `nogo_getWork`, a submission and a
block-number query issue five requests, numbered 1 to 5. -/
theorem request_ids_sequential_witness :
    (runOps nogoNode { client := NewRPCClient "http://127.0.0.1:8545" "0x00", sent := [] }
        sampleOps).client.reqID = 5 ∧
    (runOps nogoNode { client := NewRPCClient "http://127.0.0.1:8545" "0x00", sent := [] }
        sampleOps).sent.map (fun q => q.ID) = [1, 2, 3, 4, 5] := by
  have hlen : (runOps nogoNode
      { client := NewRPCClient "http://127.0.0.1:8545" "0x00", sent := [] } sampleOps).sent.length
      = 5 := by
    simp [runOps, runOp, sampleOps, GetWork, NewRPCClient, getWorkMethods, getWorkLoop, Call,
      nogoNode, answer, advance, nextReq, withMethod, SubmitWork, submitPaired_state,
      GetBlockNumber_state]
  have h := ((request_ids_sequential nogoNode).2 "http://127.0.0.1:8545" "0x00" sampleOps).2.2.1
    (by rw [hlen]; norm_num)
  rw [hlen] at h
  exact ⟨by simpa using h.1, by simpa [List.range_succ] using h.2⟩

/-! ## Miner session -/

/-- C7, the failing run. On a freshly constructed miner (any thread count), after
`Start` and `Stop` the session is stopped and its current signal is closed, and the next
`Start` closes that signal again: the run `Start; Stop; Start` ends in the run-time panic
"close of closed channel", also when the waiting goroutine has run in between. -/
theorem start_after_stop_panics (rpcClient : RPCClient) (threads : Int) (etherbase : String)
    (verbose : Bool) :
    (∃ p, runSteps [Step.start, Step.stop] (NewMiner rpcClient threads etherbase verbose) =
        Except.ok p ∧
      p.miner.running = false ∧ isOpen p.chans p.miner.stopCh = false ∧
      Start p = Except.error "close of closed channel") ∧
    runSteps [Step.start, Step.stop, Step.start] (NewMiner rpcClient threads etherbase verbose) =
      Except.error "close of closed channel" ∧
    runSteps [Step.start, Step.stop, Step.workersDone, Step.start]
        (NewMiner rpcClient threads etherbase verbose) =
      Except.error "close of closed channel" := by
  refine ⟨?_, ?_, ?_⟩ <;>
    simp [runSteps, Start, Stop, workersDone, NewMiner, makeChan, closeChan, isOpen]

/-- C8. Start guard. On a session whose running flag is set, `Start` returns the error
"miner is already running" and leaves everything as it was: the running flag, the
signal (neither closed nor replaced), the thread count, the hashrate, the found-block
counter, and the set of launched goroutines. -/
theorem start_guard (p : Process) (h : p.miner.running = true) :
    Start p = Except.ok (some "miner is already running", p) ∧
    ∀ q, Start p = Except.ok (some "miner is already running", q) →
      q.miner.running = p.miner.running ∧ q.miner.stopCh = p.miner.stopCh ∧
      q.chans = p.chans ∧ q.miner.threads = p.miner.threads ∧
      q.miner.hashrate = p.miner.hashrate ∧ q.miner.blocksFound = p.miner.blocksFound ∧
      q.spawned = p.spawned := by
  have h1 : Start p = Except.ok (some "miner is already running", p) := by
    simp [Start, h]
  refine ⟨h1, ?_⟩
  intro q hq
  rw [h1] at hq
  injection hq with hq
  injection hq with _ hq
  subst hq
  exact ⟨rfl, rfl, rfl, rfl, rfl, rfl, rfl⟩

/-- C8, at a concrete input: a second `Start` on the started four-thread miner. -/
theorem start_guard_witness :
    startedMiner.miner.running = true ∧
    Start startedMiner = Except.ok (some "miner is already running", startedMiner) :=
  ⟨rfl, (start_guard startedMiner rfl).1⟩

theorem toUint64_natCast (n : Nat) : toUint64 (n : Int) = n % 2 ^ 64 := by
  unfold toUint64
  omega

/-- C10. Hashrate aggregate overwrites. For a miner with thread count `n ≥ 0` and a
reported count `h` with `h * n < 2^64`, after `updateHashrate h` the value `GetHashrate`
returns is exactly `h * n`, whatever the aggregate was before; in particular after two
reports `h1` then `h` it is `h * n`. `updateHashrate` changes no other field and
`GetHashrate` changes nothing. -/
theorem hashrate_overwrites (m : Miner) (n h : Nat) (hn : m.threads = (n : Int))
    (hb : h * n < 2 ^ 64) :
    (GetHashrate (updateHashrate m h)).1 = h * n ∧
    (∀ h1, (GetHashrate (updateHashrate (updateHashrate m h1) h)).1 = h * n) ∧
    updateHashrate m h = { m with hashrate := h * n } ∧
    (∀ m0 : Miner, (GetHashrate m0).2 = m0 ∧ (GetHashrate m0).1 = m0.hashrate) := by
  have key : (h * toUint64 m.threads) % 2 ^ 64 = h * n := by
    rw [hn, toUint64_natCast]
    rcases Nat.eq_zero_or_pos h with h0 | hpos
    · subst h0; simp
    · have hle : n ≤ h * n := Nat.le_mul_of_pos_left n hpos
      have hlt : n < 2 ^ 64 := lt_of_le_of_lt hle hb
      rw [Nat.mod_eq_of_lt hlt, Nat.mod_eq_of_lt hb]
  refine ⟨?_, ?_, ?_, fun m0 => ⟨rfl, rfl⟩⟩
  · simpa [GetHashrate, updateHashrate] using key
  · intro h1
    simpa [GetHashrate, updateHashrate] using key
  · simp only [updateHashrate, key]

/-- C10, at a concrete input: four threads, a report of 10000. -/
theorem hashrate_overwrites_witness :
    (GetHashrate (updateHashrate sampleMiner.miner 10000)).1 = 40000 ∧
    (GetHashrate (updateHashrate (updateHashrate sampleMiner.miner 7777) 10000)).1 = 40000 := by
  have h := hashrate_overwrites sampleMiner.miner 4 10000 rfl (by norm_num)
  exact ⟨h.1, h.2.1 7777⟩

/-! ## Further facts about the session -/

/-- `Stop` on a session that is not running changes nothing. -/
theorem Stop_not_running (p : Process) (h : p.miner.running = false) : Stop p = Except.ok p := by
  simp [Stop, h]

/-- `Stop` on a running session whose signal is open closes that signal and clears the
flag; a `Start` right after it panics on the closed signal. -/
theorem Start_after_Stop (p : Process) (hr : p.miner.running = true)
    (ho : isOpen p.chans p.miner.stopCh = true) :
    ∃ q, Stop p = Except.ok q ∧ q.miner.running = false ∧
      isOpen q.chans q.miner.stopCh = false ∧ Start q = Except.error "close of closed channel" := by
  have hget : p.chans[p.miner.stopCh]? = some false := by
    unfold isOpen at ho
    split at ho
    · assumption
    · cases ho
  have hlt : p.miner.stopCh < p.chans.length := by
    by_contra hge
    rw [List.getElem?_eq_none (Nat.le_of_not_lt hge)] at hget
    cases hget
  have hset : (p.chans.set p.miner.stopCh true)[p.miner.stopCh]? = some true := by
    simp [List.getElem?_set, hlt]
  refine ⟨{ p with
    miner := { p.miner with running := false }, chans := p.chans.set p.miner.stopCh true,
    logged := if p.miner.verbose then p.logged ++ ["Stopping mining..."] else p.logged }, ?_, rfl, ?_, ?_⟩
  · simp [Stop, hr, closeChan, hget]
  · simp [isOpen, hset]
  · simp [Start, closeChan, hset]

/-- The first `Start` of a freshly constructed miner returns no error and leaves the
session running on a new, open signal, the old one closed. -/
theorem Start_fresh (rpcClient : RPCClient) (threads : Int) (etherbase : String)
    (verbose : Bool) :
    ∃ q, Start (NewMiner rpcClient threads etherbase verbose) = Except.ok (none, q) ∧
      q.miner.running = true ∧ q.miner.stopCh = 1 ∧ q.chans = [true, false] := by
  simp [Start, NewMiner, makeChan, closeChan]

/-- A poll that finds the stored method and every candidate failing issues five requests. -/
theorem GetWork_five_requests :
    (GetWork deadNode (withMethod freshWire "eth_getWork")).2.sent.map (fun q => (q.Method, q.ID)) =
      [("eth_getWork", 1), ("eth_getWork", 2), ("miner_getWork", 3), ("nogo_getWork", 4),
        ("mining_getWork", 5)] := by
  simp [GetWork, freshWire, NewRPCClient, getWorkMethods, getWorkLoop, Call, deadNode,
    answer, advance, nextReq, withMethod, wrapInt]

end NogoMiner
